import Mathlib

/-!
Verification of the craft template-merge tool.

The repository contains several revisions of a single command-line script.
Two revisions carry the full merge-policy logic and are embedded here:

* the line-oriented revision (source file `src/unnamed/part_003`), which reads
  a `craft.spec` file in a `path: directive` format (namespace `LineVariant`);
* the YAML revision (source file `src/unnamed/part_000`), which reads
  `craft.yaml` / `craft.yml` (namespace `YamlVariant`).

Both build a "Spec": a mapping from relative path to a directive string,
realised in JavaScript as a plain object mutated by assignments.  We model a
JavaScript object as an association list to which assignments prepend a pair;
lookup returns the first (i.e. most recent) binding, which matches the
last-write-wins semantics of object assignment.
-/

set_option autoImplicit false

namespace Craft

/-- The host path separator (`path.sep`).  The model fixes the POSIX value. -/
def pathSepChar : Char := '/'

/-- `path.sep` as a string. -/
def pathSep : String := String.mk [pathSepChar]

/-- `filePath.replace(/\//g, path.sep)`: every forward slash is rewritten to
the host separator.  Since the separator is a single character this is a
character map. -/
def toPlatformPath (s : String) : String :=
  String.mk (s.data.map (fun c => if c == '/' then pathSepChar else c))

/-- A Spec: the JavaScript object mapping relative paths to directive
strings.  Assignments prepend; lookup takes the most recent binding. -/
abbrev Spec := List (String × String)

/-- `spec[k] = v` (JavaScript object assignment). -/
def specSet (s : Spec) (k v : String) : Spec := (k, v) :: s

/-- `spec[k]`: `none` models `undefined`. -/
def specGet (s : Spec) (k : String) : Option String :=
  (s.find? (fun p => p.1 == k)).map (fun p => p.2)

/-- `Object.keys(spec)`: each key once, in first-insertion order. -/
def specKeys (s : Spec) : List String :=
  ((s.reverse.map Prod.fst)).dedup

/-- The recognized directive tokens of both configuration formats
(`const directives = ['ignore', 'delete', 'replace']`). -/
def directives : List String := ["ignore", "delete", "replace"]

/-- Every directive value that can ever appear in a Spec (the three
recognized configuration tokens plus the default `merge` for the manifest). -/
def validDirectives : List String := ["ignore", "delete", "replace", "merge"]

/-- A console warning emitted while reading a configuration.  The constructors
stand for the distinct `console.log` warning sites of the two readers. -/
inductive Warning where
  /-- part_003 `readSpec`: `Invalid directive for file <path>: <d>.` -/
  | invalidLineDirective (filePath directive : String)
  /-- part_000 `normalizeConfig`: `Invalid directive: <d>.` -/
  | invalidDirective (directive : String)
  /-- part_000 `normalizeConfig` `add`: `Invalid value for directive <d>: <v>.` -/
  | invalidValue (directive : String)
  /-- either reader: `Failed to read <file>. Using defaults.` -/
  | readFailed (file : String)
  deriving DecidableEq, Repr

/-- The directive of the last configuration entry for path `p`, if any. -/
def lastEntryFor (entries : List (String × String)) (p : String) : Option String :=
  (entries.reverse.find? (fun e => e.1 == p)).map (fun e => e.2)

/-- Whether a JavaScript object has an own property `k`. -/
def hasKey (m : List (String × String)) (k : String) : Bool :=
  m.any (fun p => p.1 == k)

namespace LineVariant

/-- The default Spec of the line-oriented revision (part_003 lines 14-20). -/
def defaultSpec : Spec :=
  [("node_modules", "ignore"),
   ("package.json", "merge"),
   ("package-lock.json", "ignore"),
   ("craft.spec", "ignore"),
   (".git", "ignore")]

/-- `line.charAt(0) === '#'` (an empty line's `charAt(0)` is the empty
string, which is not `'#'`). -/
def isComment (line : String) : Bool :=
  match line.data with
  | [] => false
  | c :: _ => c == '#'

/-- The regex `/^(.*?):[ \t]*(.*)$/` applied to a line: a match exists iff
the line contains a colon; the lazy first group captures everything before
the first colon, the greedy `[ \t]*` then swallows the spaces and tabs after
it, and the second group is the rest. -/
def parseLine (line : String) : Option (String × String) :=
  match line.data.dropWhile (fun c => c != ':') with
  | [] => none
  | _ :: rest =>
      some (String.mk (line.data.takeWhile (fun c => c != ':')),
            String.mk (rest.dropWhile (fun c => c == ' ' || c == '\t')))

/-- One iteration of the `forEach` in part_003 `readSpec` (lines 312-326):
skip comments and non-matching lines, store a recognized directive, warn on
an unrecognized one. -/
def processLine (acc : Spec × List Warning) (line : String) : Spec × List Warning :=
  if isComment line then acc
  else
    match parseLine line with
    | none => acc
    | some (filePath, directive) =>
        if directives.contains directive then
          (specSet acc.1 (toPlatformPath filePath) directive, acc.2)
        else
          (acc.1, acc.2 ++ [Warning.invalidLineDirective filePath directive])

/-- The validated entry a line contributes to the Spec, if any. -/
def lineEntry (line : String) : Option (String × String) :=
  if isComment line then none
  else
    match parseLine line with
    | none => none
    | some (filePath, directive) =>
        if directives.contains directive then
          some (toPlatformPath filePath, directive)
        else none

/-- All validated entries of a list of lines, in reading order. -/
def lineEntries (lines : List String) : List (String × String) :=
  lines.filterMap lineEntry

/-- Splitting on `/\r?\n/`: cut at every newline, dropping one carriage
return immediately before it.  `acc` holds the current line reversed. -/
def splitLinesAux : List Char → List Char → List String
  | [], acc => [String.mk acc.reverse]
  | c :: rest, acc =>
      if c == '\n' then
        (String.mk (dropLeadingCR acc).reverse) :: splitLinesAux rest []
      else
        splitLinesAux rest (c :: acc)
where
  dropLeadingCR : List Char → List Char
    | c :: t => if c == '\r' then t else c :: t
    | [] => []

/-- `content.split(/\r?\n/)`. -/
def splitLines (s : String) : List String := splitLinesAux s.data []

/-- part_003 `readSpec` applied to the file content: fold every line over a
copy of the defaults. -/
def readSpecContent (content : String) : Spec × List Warning :=
  (splitLines content).foldl processLine (defaultSpec, [])

/-- What happened when `readSpec` looked for `craft.spec` in the template. -/
inductive ReadOutcome where
  /-- `fs.existsSync` was false: no spec file. -/
  | noFile
  /-- the file exists but `fs.readFileSync` threw. -/
  | readError
  /-- the file exists and was read as the given string. -/
  | content (s : String)

/-- part_003 `readSpec` (lines 303-332). -/
def readSpec : ReadOutcome → Spec × List Warning
  | .noFile => (defaultSpec, [])
  | .readError => (defaultSpec, [Warning.readFailed "craft.spec"])
  | .content s => readSpecContent s

/-- The validated configuration entries contributed by a read outcome. -/
def outcomeEntries : ReadOutcome → List (String × String)
  | .content s => lineEntries (splitLines s)
  | _ => []

end LineVariant

namespace YamlVariant

/-- The default Spec of the YAML revision (part_000 lines 15-22). -/
def defaultSpec : Spec :=
  [("node_modules", "ignore"),
   ("package.json", "merge"),
   ("package-lock.json", "ignore"),
   ("craft.yaml", "ignore"),
   ("craft.yml", "ignore"),
   (".git", "ignore")]

/-- A value found under a directive key of `config.spec`, as classified by
`add` (part_000 lines 343-352): strings, numbers and booleans are kept (the
string holds the JavaScript `toString` of the value); anything else is
rejected with a warning. -/
inductive ConfigVal where
  | scalar (s : String)
  | other
  deriving DecidableEq, Repr

/-- The value of one directive key: a single value or an array of values. -/
inductive ConfigEntry where
  | single (v : ConfigVal)
  | array (vs : List ConfigVal)
  deriving DecidableEq, Repr

/-- The parsed YAML document as `normalizeConfig` sees it: its `spec`
property, `none` when absent or null (falsy). -/
structure Config where
  spec : Option (List (String × ConfigEntry))
  deriving DecidableEq, Repr

/-- `add(directive, value)` from part_000 `normalizeConfig`. -/
def add (acc : Spec × List Warning) (directive : String) (v : ConfigVal) :
    Spec × List Warning :=
  match v with
  | .scalar s => (specSet acc.1 (toPlatformPath s) directive, acc.2)
  | .other => (acc.1, acc.2 ++ [Warning.invalidValue directive])

/-- One iteration of the `forEach` over the keys of `config.spec`
(part_000 lines 355-366). -/
def processDirective (acc : Spec × List Warning) (e : String × ConfigEntry) :
    Spec × List Warning :=
  if directives.contains e.1 then
    match e.2 with
    | .single v => add acc e.1 v
    | .array vs => vs.foldl (fun a v => add a e.1 v) acc
  else
    (acc.1, acc.2 ++ [Warning.invalidDirective e.1])

/-- part_000 `normalizeConfig` (lines 340-369): start from a copy of the
defaults and process every directive key of `config.spec`. -/
def normalizeConfig (config : Config) : Spec × List Warning :=
  match config.spec with
  | none => (defaultSpec, [])
  | some entries => entries.foldl processDirective (defaultSpec, [])

/-- What happened when `readConfig` looked for `craft.yaml` / `craft.yml`. -/
inductive YamlOutcome where
  /-- neither file exists. -/
  | noFile
  /-- a file exists but reading or parsing it threw (this includes a
  document that is the YAML scalar null: `normalizeConfig(null)` dereferences
  `null.spec`, and the resulting TypeError is caught by the same handler). -/
  | failed
  /-- a file exists and parsed to a document; `none` models the `undefined`
  result of an empty file, for which the default parameter of
  `normalizeConfig` supplies an empty object. -/
  | doc (c : Option Config)

/-- part_000 `readConfig` (lines 311-338).  It returns the object assigned
onto the run context: `some spec` when the returned object has a `spec`
property, `none` when it is the empty object `{}` (no file, or read/parse
failure). -/
def readConfig : YamlOutcome → Option Spec × List Warning
  | .noFile => (none, [])
  | .failed => (none, [Warning.readFailed "craft.yaml"])
  | .doc c =>
      let r := normalizeConfig (c.getD ⟨none⟩)
      (some r.1, r.2)

/-- The validated entry a single value under directive `d` contributes. -/
def scalarEntry (d : String) : ConfigVal → Option (String × String)
  | .scalar s => some (toPlatformPath s, d)
  | .other => none

/-- The values listed under one directive key. -/
def entryVals : ConfigEntry → List ConfigVal
  | .single v => [v]
  | .array vs => vs

/-- The validated entries contributed by one directive key: nothing when the
key is unrecognized, else every scalar value, path-normalized. -/
def entryPaths (e : String × ConfigEntry) : List (String × String) :=
  if directives.contains e.1 then (entryVals e.2).filterMap (scalarEntry e.1)
  else []

/-- All validated configuration entries, in processing order. -/
def configEntries (c : Config) : List (String × String) :=
  (c.spec.getD []).flatMap entryPaths

/-- The validated configuration entries contributed by a read outcome
(nothing when there is no document to process). -/
def outcomeEntries : YamlOutcome → List (String × String)
  | .doc c => configEntries (c.getD ⟨none⟩)
  | _ => []

end YamlVariant

/-- Adding one validated entry to a Spec. -/
def applyEntry (sp : Spec) (e : String × String) : Spec :=
  specSet sp e.1 e.2

/-- Adding a list of validated entries in order. -/
def applyEntries (es : List (String × String)) (s : Spec) : Spec :=
  es.foldl applyEntry s

/-- Every directive value of the Spec is one of the valid directive
strings (true of every Spec the program constructs). -/
def specWF (s : Spec) : Bool :=
  s.all (fun e => validDirectives.contains e.2)

/-! ### Copy/skip executor (part_000 lines 129-167, part_003 lines 127-165) -/

/-- JavaScript truthiness of a string (only the empty string is falsy). -/
def jsTruthy (s : String) : Bool := s != ""

/-- `skip = file => { const directive = obj.spec[file]; return directive && directive !== 'replace'; }` -/
def skip (spec : Spec) (file : String) : Bool :=
  match specGet spec file with
  | none => false
  | some directive => jsTruthy directive && directive != "replace"

/-- The top-level entries the copy phase passes to `fs.copy` (the `for`
loop `continue`s on `skip(file)`). -/
def copiedFiles (spec : Spec) (files : List String) : List String :=
  files.filter (fun f => !skip spec f)

mutual
/-- A directory tree: the contents of the template snapshot. -/
inductive FsTree where
  | file (name : String)
  | dir (name : String) (children : FsForest)
/-- A list of sibling directory trees. -/
inductive FsForest where
  | fnil
  | fcons (t : FsTree) (ts : FsForest)
end

/-- The name of a tree's root entry. -/
def FsTree.name : FsTree → String
  | .file n => n
  | .dir n _ => n

/-- Join path components with the host separator (`path.join` of the pieces
the recursive copy appends; the filter receives this string relative to the
snapshot root via `src.substring(prefixLength)`). -/
def joinPath : List String → String
  | [] => ""
  | [x] => x
  | x :: xs => x ++ pathSep ++ joinPath xs

mutual
/-- Model of the external `fs.copy` with the `filter` of the copy phase:
the walk visits a node at relative path `p ++ [name]`; when the filter
rejects it (i.e. `skip` of the relative path holds) the node and everything
below it are not copied, otherwise a file is copied and a directory's
children are walked. -/
def copyTree (spec : Spec) (p : List String) : FsTree → Option FsTree
  | .file n =>
      if skip spec (joinPath (p ++ [n])) then none
      else some (.file n)
  | .dir n cs =>
      if skip spec (joinPath (p ++ [n])) then none
      else some (.dir n (copyForest spec (p ++ [n]) cs))
def copyForest (spec : Spec) (p : List String) : FsForest → FsForest
  | .fnil => .fnil
  | .fcons t ts =>
      match copyTree spec p t with
      | none => copyForest spec p ts
      | some t2 => .fcons t2 (copyForest spec p ts)
end

mutual
/-- All node paths of a tree placed under prefix `p` (each as its component
list relative to the snapshot root). -/
def treePaths (p : List String) : FsTree → List (List String)
  | .file n => [p ++ [n]]
  | .dir n cs => (p ++ [n]) :: forestPaths (p ++ [n]) cs
def forestPaths (p : List String) : FsForest → List (List String)
  | .fnil => []
  | .fcons t ts => treePaths p t ++ forestPaths p ts
end

/-- The paths materialized in the target when the copy phase copies the
top-level entry `t` (empty when the entry itself is filtered out). -/
def matTreePaths (spec : Spec) (p : List String) (t : FsTree) : List (List String) :=
  match copyTree spec p t with
  | none => []
  | some t2 => treePaths p t2

/-! ### Deletion and copy phases as promise chains -/

/-- A reason a promise rejects or an exception is raised. -/
inductive RunError where
  /-- a rejection object carrying the failing command line. -/
  | commandFailed (cmd : String)
  /-- a TypeError such as `Object.keys(undefined)`. -/
  | typeError (msg : String)
  /-- a strict-mode reference to an identifier that is not in scope. -/
  | referenceError (name : String)
  deriving DecidableEq, Repr

/-- How a single promise settled. -/
inductive Settled where
  | resolved
  | rejected (reason : RunError)
  deriving DecidableEq, Repr

/-- Modelled from the spec: `Promise.all` resolves iff every member
resolves, and otherwise rejects with the first rejection reason. -/
def promiseAll (ps : List Settled) : Settled :=
  match ps.find? (fun p => p != Settled.resolved) with
  | some r => r
  | none => Settled.resolved

/-- One deletion promise (part_000 lines 114-125): the `fs.remove` callback
logs a red `!` marker on error and a `-` marker on success, and calls
`resolve()` on both branches. -/
def removeOp (file : String) (err : Bool) : Settled × List String :=
  if err then (Settled.resolved, ["! " ++ file])
  else (Settled.resolved, ["- " ++ file])

/-- One copy promise (part_000 lines 153-164): the `fs.copy` callback logs a
red `!` marker on error and a `+` marker on success, and calls `resolve()`
on both branches. -/
def copyOp (file : String) (err : Bool) : Settled × List String :=
  if err then (Settled.resolved, ["! " ++ file])
  else (Settled.resolved, ["+ " ++ file])

/-- Modelled from the spec: the external `fs.remove` collaborator removes
the target and everything below it; its callback receives an error only for
an I/O fault (`ioFault`), never because the target does not exist. -/
def fsRemove (fsPaths : List String) (target : String) (ioFault : Bool) :
    List String × Bool :=
  (fsPaths.filter (fun p => !(p == target || (target ++ pathSep).isPrefixOf p)),
   ioFault)

/-- `Object.keys(obj.spec).filter(file => obj.spec[file] === 'delete')`. -/
def deleteFiles (spec : Spec) : List String :=
  (specKeys spec).filter (fun f => specGet spec f == some "delete")

/-- The deletion phase of part_000 (lines 104-128).  Its input is the `spec`
property of the run context, which `Object.assign(obj, readConfig(...))` may
have left undefined: `Object.keys(undefined)` then throws a TypeError, which
rejects the chain.  Otherwise every delete path gets a promise and the phase
settles as their `Promise.all`. -/
def deletePhase (spec : Option Spec) (err : String → Bool) :
    Except RunError (List String) :=
  match spec with
  | none => Except.error (RunError.typeError "Cannot convert undefined or null to object")
  | some s =>
      match promiseAll (((deleteFiles s).map (fun f => removeOp f (err f))).map
          (fun o => o.1)) with
      | Settled.resolved =>
          Except.ok (((deleteFiles s).map (fun f => removeOp f (err f))).flatMap
            (fun o => o.2))
      | Settled.rejected r => Except.error r

/-- The copy phase (part_000 lines 129-167): one promise per non-skipped
top-level entry, settled as their `Promise.all`. -/
def copyPhase (spec : Spec) (files : List String) (err : String → Bool) :
    Except RunError (List String) :=
  match promiseAll (((copiedFiles spec files).map (fun f => copyOp f (err f))).map
      (fun o => o.1)) with
  | Settled.resolved =>
      Except.ok (((copiedFiles spec files).map (fun f => copyOp f (err f))).flatMap
        (fun o => o.2))
  | Settled.rejected r => Except.error r

/-! ### Manifests (package.json values) -/

/-- A JSON value as read by `fs.readJsonSync`. -/
inductive JsVal where
  | null
  | bool (b : Bool)
  | num (n : Int)
  | str (s : String)
  | arr (elems : List JsVal)
  | obj (fields : List (String × JsVal))

/-- A JavaScript object: its own enumerable properties in order. -/
abbrev JsObj := List (String × JsVal)

/-- Property access `m[k]` (`none` models `undefined`). -/
def objGet (m : JsObj) (k : String) : Option JsVal :=
  (m.find? (fun p => p.1 == k)).map (fun p => p.2)

/-- Property assignment `m[k] = v`: an existing property keeps its slot and
receives the new value, a new property is appended. -/
def objSet (m : JsObj) (k : String) (v : JsVal) : JsObj :=
  if m.any (fun p => p.1 == k) then
    m.map (fun p => if p.1 == k then (k, v) else p)
  else m ++ [(k, v)]

/-- Removal of a property (a `delete`, or an `undefined`-valued property
dropped by `JSON.stringify`). -/
def objDrop (m : JsObj) (k : String) : JsObj :=
  m.filter (fun p => p.1 != k)

/-- `Object.assign(a, b)` restricted to object sources: assign every own
property of `b` onto `a`, in order. -/
def assignFields (a b : JsObj) : JsObj :=
  b.foldl (fun acc kv => objSet acc kv.1 kv.2) a

/-- The fields a property value contributes as an `Object.assign` source or
an `|| {}` fallback: the fields of an object, nothing for `undefined`
(for the pathological non-object primitives the model also yields nothing;
the theorems about manifests assume object-or-absent fields). -/
def fieldsOf : Option JsVal → JsObj
  | some (.obj fs) => fs
  | _ => []

/-- JavaScript truthiness of a JSON value. -/
def jsTruthyVal : JsVal → Bool
  | .null => false
  | .bool b => b
  | .num n => n != 0
  | .str s => s != ""
  | .arr _ => true
  | .obj _ => true

/-- `a || b` on possibly-undefined values. -/
def jsOr (a b : Option JsVal) : Option JsVal :=
  match a with
  | some v => if jsTruthyVal v then some v else b
  | none => b

/-- Whether a field, when present, is an object (`objOrAbsentAt m k`): the
shapes on which the model of `Object.assign` sources and `|| {}` is
faithful. -/
def objOrAbsentAt (m : JsObj) (k : String) : Bool :=
  match objGet m k with
  | none => true
  | some (.obj _) => true
  | some _ => false

/-- Whether a JavaScript object has an own property `k`. -/
def objHasKey (m : JsObj) (k : String) : Bool :=
  m.any (fun p => p.1 == k)

/-- The `scripts` fields of a manifest (`manifest.scripts` as an
`Object.assign` source). -/
def scriptsFields (m : JsObj) : JsObj := fieldsOf (objGet m "scripts")

/-- `Object.assign({}, appPackageJson.scripts, templatePackageJson.scripts)`
(part_000 lines 207-211): template script entries win. -/
def mergedScriptsFields (template app : JsObj) : JsObj :=
  assignFields (assignFields [] (scriptsFields app)) (scriptsFields template)

/-- `Object.assign({}, templatePackageJson, appPackageJson, ...)` up to and
including the `scripts` key of the final literal. -/
def mergedBase (template app : JsObj) : JsObj :=
  objSet (assignFields (assignFields [] template) app) "scripts"
    (JsVal.obj (mergedScriptsFields template app))

/-- The merged manifest of part_000 lines 207-229:
`Object.assign({}, templatePackageJson, appPackageJson, { scripts, eslintConfig })`
with `scripts` and `eslintConfig` the two computed constants.  When the
computed `eslintConfig` is `undefined` the property is assigned as
`undefined` and then dropped by `JSON.stringify`, so the persisted object
lacks the key; `objDrop` models the persisted form. -/
def mergedPackageJson (template app : JsObj) : JsObj :=
  match jsOr (objGet template "eslintConfig") (objGet app "eslintConfig") with
  | some v => objSet (mergedBase template app) "eslintConfig" v
  | none => objDrop (mergedBase template app) "eslintConfig"

/-- `templatePackageJson.dependencies || {}` etc. -/
def depsFields (m : JsObj) : JsObj := fieldsOf (objGet m "dependencies")

/-- part_000 lines 189-196: the template dependencies that survive
`Object.keys(appPackageJson.dependencies || {}).forEach(key => delete templateDependencies[key])` —
the template's dependencies minus every name present in the app manifest. -/
def remainingDependencies (template appPre : JsObj) : JsObj :=
  (depsFields template).filter
    (fun p => !((depsFields appPre).any (fun q => q.1 == p.1)))

/-- The `delete` loop of part_000 mutates `templatePackageJson.dependencies`
in place (`templateDependencies` aliases it when it is an object), so by
merge time the template manifest carries the reduced dependency set. -/
def templateAtMergeTime (template appPre : JsObj) : JsObj :=
  match objGet template "dependencies" with
  | some (.obj _) =>
      objSet template "dependencies" (JsVal.obj (remainingDependencies template appPre))
  | _ => template

/-- The manifest part_000 writes to the target project: the merge of the
(mutated) template manifest with the baseline manifest as re-read after the
install step. -/
def mergeStage (template appPre appPost : JsObj) : JsObj :=
  mergedPackageJson (templateAtMergeTime template appPre) appPost

/-! ### The install invocation -/

/-- Join with commas (for the array coercion below). -/
def joinComma : List String → String
  | [] => ""
  | [x] => x
  | x :: xs => x ++ "," ++ joinComma xs

mutual
/-- JavaScript string coercion of a JSON value as used by the template
literal building an install argument (array coercion is approximated by a
comma join of the elements). -/
def jsToString : JsVal → String
  | .null => "null"
  | .bool b => if b then "true" else "false"
  | .num n => toString n
  | .str s => s
  | .arr xs => joinComma (jsToStringList xs)
  | .obj _ => "[object Object]"
def jsToStringList : List JsVal → List String
  | [] => []
  | x :: xs => jsToString x :: jsToStringList xs
end

/-- The argument list of the `npm` invocation built by `install`
(part_000 lines 371-386, part_003 lines 334-349). -/
def installArgs (dependencies : JsObj) : List String :=
  ["install", "--save", "--loglevel", "error"] ++
    dependencies.map (fun p => p.1 ++ "@" ++ jsToString p.2)

/-- part_003 lines 187-196: the dependency subtraction of the line-oriented
revision removes the three hardcoded names `react`, `react-dom` and
`react-scripts` instead of the baseline manifest's dependency names (its own
TODO comment records that they should be taken from the package.json of the
just-created app). -/
def installedDependencies : List String := ["react", "react-dom", "react-scripts"]

/-- The dependencies part_003 passes to `install`. -/
def dependenciesToInstallLegacy (template : JsObj) : JsObj :=
  (depsFields template).filter (fun p => !installedDependencies.contains p.1)

/-! ### Subprocess close handlers and the final catch handler -/

/-- How a `child.on('close', ...)` handler left the enclosing promise. -/
inductive CloseResult where
  /-- `resolve()` ran. -/
  | resolved
  /-- `reject({ command })` ran with the given command line. -/
  | rejectedWith (command : String)
  /-- the handler raised an uncaught exception: a strict-mode reference to
  the named identifier, which is not bound in any enclosing scope.  The
  handler runs as a child-process event callback, outside the promise
  executor, so the exception never becomes a rejection. -/
  | threw (name : String)
  deriving DecidableEq, Repr

/-- Join with single spaces (`args.join(' ')`). -/
def joinSpace : List String → String
  | [] => ""
  | [x] => x
  | x :: xs => x ++ " " ++ joinSpace xs

/-- The `createApp` close handler (part_000 lines 251-267). -/
def createAppClose (npx : Bool) (name : String) (code : Nat) : CloseResult :=
  let command := if npx then "npx" else "create-react-app"
  let args := if npx then ["create-react-app", name] else [name]
  if code != 0 then CloseResult.rejectedWith (command ++ " " ++ joinSpace args)
  else CloseResult.resolved

/-- The `git clone` close handler (part_000 lines 87-101).  On a non-zero
exit it rejects with the command line; the missing `return` lets the handler
fall through to `resolve(obj)`, but the promise is already settled, so the
rejection stands. -/
def cloneClose (templateUrl tmpdir : String) (code : Nat) : CloseResult :=
  let command := "git"
  let args := ["clone", templateUrl, tmpdir]
  if code != 0 then CloseResult.rejectedWith (command ++ " " ++ joinSpace args)
  else CloseResult.resolved

/-- Every identifier bound in a scope enclosing the `npm` close handler of
`install` (part_000 lines 371-398): the module-level bindings, the function
names, the `install` parameter and locals, the executor parameters and the
handler parameter.  No binding named `command` exists anywhere in `install`
(unlike `createApp` and the clone stage, which declare `const command`). -/
def installScopeNames : List String :=
  ["program", "fs", "path", "chalk", "spawn", "execSync", "tmp", "yaml",
   "packageJson", "projectName", "projectTemplate", "root", "npx",
   "createApp", "isNPXAvailable", "isCRAInstalled", "getTemporaryDirectory",
   "readConfig", "normalizeConfig", "install",
   "dependencies", "args", "child", "resolve", "reject", "code"]

/-- The `npm install` close handler: on a non-zero exit it evaluates the
rejection reason, a template literal interpolating the identifier `command`;
were that identifier in scope the handler would reject with the interpolated
command line, but in strict mode an identifier that is not in scope raises a
ReferenceError instead. -/
def installClose (dependencies : JsObj) (code : Nat) : CloseResult :=
  if code != 0 then
    if installScopeNames.contains "command" then
      CloseResult.rejectedWith ("npm" ++ " " ++ joinSpace (installArgs dependencies))
    else
      CloseResult.threw "command"
  else CloseResult.resolved

/-- What becomes of the run after a stage settles. -/
inductive RunOutcome where
  /-- the chain continues. -/
  | proceeded
  /-- the final catch handler ran and printed the given lines. -/
  | abortedPrinting (lines : List String)
  /-- an uncaught exception in an event callback crashed the process; the
  catch handler never ran. -/
  | crashed (message : String)
  deriving DecidableEq, Repr

/-- The top level of the chain: a rejection reaches the catch handler
(part_000 lines 239-249), which prints the aborting banner and, because the
reason carries a `command`, the failing command line (colors elided); an
exception thrown inside an event callback crashes the process instead. -/
def settleToOutcome : CloseResult → RunOutcome
  | .resolved => .proceeded
  | .rejectedWith cmd =>
      .abortedPrinting ["Aborting installation.", "  " ++ cmd ++ " has failed."]
  | .threw name => .crashed ("ReferenceError: " ++ name ++ " is not defined")

/-- The value of the last property named `k` written into `m` when `m` is
read as a sequence of assignments (coincides with `objGet` when the keys of
`m` are distinct, as they are for any JSON-parsed object). -/
def lastFieldFor (m : JsObj) (k : String) : Option JsVal :=
  (m.reverse.find? (fun p => p.1 == k)).map (fun p => p.2)

/-! ### Concrete inputs used by witnesses and counterexamples -/

/-- A Spec holding a directive for the nested path a/b. -/
def exSpec : Spec := [("a/b", "ignore")]

/-- A template entry a containing b/c. -/
def exTree : FsTree :=
  FsTree.dir "a" (FsForest.fcons (FsTree.dir "b"
    (FsForest.fcons (FsTree.file "c") FsForest.fnil)) FsForest.fnil)

/-- A template manifest whose lint configuration is present but null. -/
def tplC : JsObj := [("eslintConfig", JsVal.null)]

/-- A baseline manifest with a lint configuration of its own. -/
def appC : JsObj := [("eslintConfig", JsVal.str "app-config")]

/-- A template manifest for the merge scenario of the spec. -/
def tplW : JsObj :=
  [("name", JsVal.str "template"),
   ("scripts", JsVal.obj [("build", JsVal.str "custom-build")]),
   ("dependencies", JsVal.obj [("lodash", JsVal.str "^4.0.0")])]

/-- The baseline manifest before dependency installation. -/
def appPreW : JsObj :=
  [("name", JsVal.str "my-app"),
   ("scripts", JsVal.obj
      [("build", JsVal.str "react-scripts build"),
       ("test", JsVal.str "react-scripts test")]),
   ("dependencies", JsVal.obj [("react", JsVal.str "^16.0.0")])]

/-- The baseline manifest as re-read after dependency installation. -/
def appPostW : JsObj :=
  [("name", JsVal.str "my-app"),
   ("scripts", JsVal.obj
      [("build", JsVal.str "react-scripts build"),
       ("test", JsVal.str "react-scripts test")]),
   ("dependencies", JsVal.obj
      [("react", JsVal.str "^16.0.0"), ("lodash", JsVal.str "^4.0.0")])]

/-- A template manifest declaring a dependency the baseline already has. -/
def tpl5 : JsObj :=
  [("name", JsVal.str "template"),
   ("dependencies", JsVal.obj [("lodash", JsVal.str "^4.0.0")])]

/-- A baseline manifest that already contains lodash. -/
def app5 : JsObj :=
  [("dependencies", JsVal.obj
      [("react", JsVal.str "^16.0.0"), ("lodash", JsVal.str "4.17.0")])]

/-- A structured configuration overriding the manifest default. -/
def yamlW : YamlVariant.Config :=
  ⟨some [("ignore", YamlVariant.ConfigEntry.single
    (YamlVariant.ConfigVal.scalar "package.json"))]⟩

/-- A line-format configuration overriding a default entry. -/
def lineContentW : String := "node_modules: replace"

end Craft

/-! ## Theorems -/

namespace Craft

theorem applyEntries_eq_append (es : List (String × String)) (s : Spec) :
    applyEntries es s = es.reverse ++ s := by
  induction es generalizing s with
  | nil => rfl
  | cons e es ih =>
      show applyEntries es (applyEntry s e) = (e :: es).reverse ++ s
      rw [ih]
      simp [applyEntry, specSet]

theorem applyEntries_append (a b : List (String × String)) (s : Spec) :
    applyEntries (a ++ b) s = applyEntries b (applyEntries a s) := by
  simp [applyEntries, List.foldl_append]

theorem specGet_append (a b : Spec) (k : String) :
    specGet (a ++ b) k = (specGet a k).or (specGet b k) := by
  simp [specGet, List.find?_append, Option.map_or']

theorem specGet_applyEntries (es : List (String × String)) (s : Spec) (k : String) :
    specGet (applyEntries es s) k = (lastEntryFor es k).or (specGet s k) := by
  rw [applyEntries_eq_append, specGet_append]; rfl

theorem LineVariant.processLine_fst (acc : Spec × List Warning) (line : String) :
    (LineVariant.processLine acc line).1 =
      match LineVariant.lineEntry line with
      | some e => applyEntry acc.1 e
      | none => acc.1 := by
  unfold LineVariant.processLine LineVariant.lineEntry
  by_cases hc : LineVariant.isComment line
  · simp [hc]
  · simp only [hc, Bool.false_eq_true, if_false]
    cases hp : LineVariant.parseLine line with
    | none => simp
    | some pr =>
        obtain ⟨fp, d⟩ := pr
        by_cases hd : d ∈ directives <;> simp [hd, applyEntry]

theorem LineVariant.foldl_processLine_fst (lines : List String) :
    ∀ (acc : Spec × List Warning),
      (lines.foldl LineVariant.processLine acc).1 =
        applyEntries (LineVariant.lineEntries lines) acc.1 := by
  induction lines with
  | nil => intro acc; rfl
  | cons line rest ih =>
      intro acc
      simp only [List.foldl_cons]
      rw [ih (LineVariant.processLine acc line), LineVariant.processLine_fst]
      simp only [LineVariant.lineEntries, List.filterMap_cons]
      cases he : LineVariant.lineEntry line with
      | none => rfl
      | some e => rfl

theorem LineVariant.readSpec_fst (o : LineVariant.ReadOutcome) :
    (LineVariant.readSpec o).1 =
      applyEntries (LineVariant.outcomeEntries o) LineVariant.defaultSpec := by
  cases o with
  | noFile => rfl
  | readError => rfl
  | content s =>
      exact LineVariant.foldl_processLine_fst (LineVariant.splitLines s)
        (LineVariant.defaultSpec, [])

theorem YamlVariant.add_fst (acc : Spec × List Warning) (d : String)
    (v : YamlVariant.ConfigVal) :
    (YamlVariant.add acc d v).1 =
      match YamlVariant.scalarEntry d v with
      | some e => applyEntry acc.1 e
      | none => acc.1 := by
  cases v <;> rfl

theorem YamlVariant.foldl_add_fst (vs : List YamlVariant.ConfigVal) (d : String) :
    ∀ (acc : Spec × List Warning),
      ((vs.foldl (fun a v => YamlVariant.add a d v) acc)).1 =
        applyEntries (vs.filterMap (YamlVariant.scalarEntry d)) acc.1 := by
  induction vs with
  | nil => intro acc; rfl
  | cons v rest ih =>
      intro acc
      simp only [List.foldl_cons]
      rw [ih (YamlVariant.add acc d v), YamlVariant.add_fst]
      simp only [List.filterMap_cons]
      cases he : YamlVariant.scalarEntry d v with
      | none => rfl
      | some e => rfl

theorem YamlVariant.processDirective_fst (e : String × YamlVariant.ConfigEntry)
    (acc : Spec × List Warning) :
    (YamlVariant.processDirective acc e).1 =
      applyEntries (YamlVariant.entryPaths e) acc.1 := by
  unfold YamlVariant.processDirective YamlVariant.entryPaths
  by_cases hd : e.1 ∈ directives
  · rw [if_pos (by simpa using hd), if_pos (by simpa using hd)]
    cases h2 : e.2 with
    | single v =>
        rw [YamlVariant.add_fst]
        simp only [YamlVariant.entryVals, List.filterMap_cons, List.filterMap_nil]
        cases he : YamlVariant.scalarEntry e.1 v with
        | none => rfl
        | some e2 => rfl
    | array vs =>
        exact YamlVariant.foldl_add_fst vs e.1 acc
  · rw [if_neg (by simpa using hd), if_neg (by simpa using hd)]
    rfl

theorem YamlVariant.foldl_processDirective_fst
    (es : List (String × YamlVariant.ConfigEntry)) :
    ∀ (acc : Spec × List Warning),
      ((es.foldl YamlVariant.processDirective acc)).1 =
        applyEntries (es.flatMap YamlVariant.entryPaths) acc.1 := by
  induction es with
  | nil => intro acc; rfl
  | cons e rest ih =>
      intro acc
      simp only [List.foldl_cons, List.flatMap_cons]
      rw [ih (YamlVariant.processDirective acc e), YamlVariant.processDirective_fst,
        applyEntries_append]

theorem YamlVariant.normalizeConfig_fst (c : YamlVariant.Config) :
    (YamlVariant.normalizeConfig c).1 =
      applyEntries (YamlVariant.configEntries c) YamlVariant.defaultSpec := by
  unfold YamlVariant.normalizeConfig YamlVariant.configEntries
  cases hc : c.spec with
  | none => rfl
  | some es =>
      simpa using YamlVariant.foldl_processDirective_fst es (YamlVariant.defaultSpec, [])

/-- C1: in every Spec construction of either configuration format, a path of
the documented default mapping keeps its default directive unless the
configuration supplies a valid entry for that exact path, in which case the
Spec maps the path to the directive of the last such entry. -/
theorem C1_defaults_overridden_by_config :
    (∀ (o : LineVariant.ReadOutcome) (p d₀ : String),
        specGet LineVariant.defaultSpec p = some d₀ →
        specGet (LineVariant.readSpec o).1 p =
          some ((lastEntryFor (LineVariant.outcomeEntries o) p).getD d₀)) ∧
    (∀ (y : YamlVariant.YamlOutcome) (s : Spec) (p d₀ : String),
        specGet YamlVariant.defaultSpec p = some d₀ →
        (YamlVariant.readConfig y).1 = some s →
        specGet s p = some ((lastEntryFor (YamlVariant.outcomeEntries y) p).getD d₀)) := by
  constructor
  · intro o p d₀ h
    rw [LineVariant.readSpec_fst, specGet_applyEntries, h]
    cases lastEntryFor (LineVariant.outcomeEntries o) p with
    | none => rfl
    | some d => rfl
  · intro y s p d₀ h hy
    cases y with
    | noFile => cases hy
    | failed => cases hy
    | doc c =>
        have hy2 : some (YamlVariant.normalizeConfig
            (c.getD (⟨none⟩ : YamlVariant.Config))).1 = some s := hy
        injection hy2 with hs
        rw [← hs, YamlVariant.normalizeConfig_fst, specGet_applyEntries, h]
        have hoe : YamlVariant.outcomeEntries (YamlVariant.YamlOutcome.doc c) =
            YamlVariant.configEntries (c.getD (⟨none⟩ : YamlVariant.Config)) := rfl
        rw [hoe]
        cases lastEntryFor
            (YamlVariant.configEntries (c.getD (⟨none⟩ : YamlVariant.Config))) p with
    | none => rfl
    | some d => rfl

/-- Witness for C1 at concrete inputs of both formats. -/
theorem C1_defaults_overridden_by_config_witness :
    (specGet LineVariant.defaultSpec "node_modules" = some "ignore" ∧
      specGet (LineVariant.readSpec (LineVariant.ReadOutcome.content lineContentW)).1
          "node_modules" =
        some ((lastEntryFor
          (LineVariant.outcomeEntries (LineVariant.ReadOutcome.content lineContentW))
          "node_modules").getD "ignore")) ∧
    (specGet YamlVariant.defaultSpec "package.json" = some "merge" ∧
      (YamlVariant.readConfig (YamlVariant.YamlOutcome.doc (some yamlW))).1 =
        some (YamlVariant.normalizeConfig yamlW).1 ∧
      specGet (YamlVariant.normalizeConfig yamlW).1 "package.json" =
        some ((lastEntryFor
          (YamlVariant.outcomeEntries (YamlVariant.YamlOutcome.doc (some yamlW)))
          "package.json").getD "merge")) :=
  ⟨⟨by decide,
    C1_defaults_overridden_by_config.1 (LineVariant.ReadOutcome.content lineContentW)
      "node_modules" "ignore" (by decide)⟩,
   ⟨by decide, rfl,
    C1_defaults_overridden_by_config.2 (YamlVariant.YamlOutcome.doc (some yamlW))
      (YamlVariant.normalizeConfig yamlW).1 "package.json" "merge" (by decide) rfl⟩⟩

/-- C6: a configuration entry with an unrecognized directive token only
emits a warning; the Spec is returned exactly as it was before the entry was
processed, in both configuration formats. -/
theorem C6_unrecognized_directive_is_inert :
    (∀ (sp : Spec) (w : List Warning) (line fp d : String),
        LineVariant.isComment line = false →
        LineVariant.parseLine line = some (fp, d) →
        directives.contains d = false →
        LineVariant.processLine (sp, w) line =
          (sp, w ++ [Warning.invalidLineDirective fp d])) ∧
    (∀ (sp : Spec) (w : List Warning) (e : String × YamlVariant.ConfigEntry),
        directives.contains e.1 = false →
        YamlVariant.processDirective (sp, w) e =
          (sp, w ++ [Warning.invalidDirective e.1])) := by
  constructor
  · intro sp w line fp d hc hp hd
    have hd' : d ∉ directives := by simpa using hd
    unfold LineVariant.processLine
    rw [if_neg (by simp [hc]), hp]
    simp [hd']
  · intro sp w e hd
    have hd' : e.1 ∉ directives := by simpa using hd
    unfold YamlVariant.processDirective
    rw [if_neg (by simpa using hd')]

/-- Witness for C6: an unknown token in a line, and the token merge used as
a top-level key of the structured format (it is not in the recognized list). -/
theorem C6_unrecognized_directive_is_inert_witness :
    (LineVariant.isComment "foo: frobnicate" = false ∧
     LineVariant.parseLine "foo: frobnicate" = some ("foo", "frobnicate") ∧
     directives.contains "frobnicate" = false ∧
     LineVariant.processLine (LineVariant.defaultSpec, []) "foo: frobnicate" =
       (LineVariant.defaultSpec, [Warning.invalidLineDirective "foo" "frobnicate"])) ∧
    (directives.contains "merge" = false ∧
     YamlVariant.processDirective (YamlVariant.defaultSpec, [])
         ("merge", YamlVariant.ConfigEntry.single (YamlVariant.ConfigVal.scalar "x")) =
       (YamlVariant.defaultSpec, [Warning.invalidDirective "merge"])) :=
  ⟨⟨by decide, by decide, by decide,
    C6_unrecognized_directive_is_inert.1 LineVariant.defaultSpec [] "foo: frobnicate"
      "foo" "frobnicate" (by decide) (by decide) (by decide)⟩,
   ⟨by decide,
    C6_unrecognized_directive_is_inert.2 YamlVariant.defaultSpec []
      ("merge", YamlVariant.ConfigEntry.single (YamlVariant.ConfigVal.scalar "x"))
      (by decide)⟩⟩

theorem specGet_mem (s : Spec) (k v : String) (h : specGet s k = some v) :
    (k, v) ∈ s := by
  unfold specGet at h
  cases hf : s.find? (fun p => p.1 == k) with
  | none => rw [hf] at h; cases h
  | some p =>
      rw [hf] at h
      injection h with h2
      have hp := List.find?_some hf
      have hm := List.mem_of_find?_eq_some hf
      have hpk : p.1 = k := by simpa using hp
      have : p = (k, v) := by
        obtain ⟨p1, p2⟩ := p
        simp only [Prod.mk.injEq]
        exact ⟨hpk, h2⟩
      rw [← this]
      exact hm

theorem mem_applyEntries (es : List (String × String)) (s : Spec)
    (e : String × String) :
    e ∈ applyEntries es s ↔ e ∈ es ∨ e ∈ s := by
  rw [applyEntries_eq_append]
  simp [List.mem_append]

theorem LineVariant.lineEntry_valid (line : String) (e : String × String)
    (h : LineVariant.lineEntry line = some e) : e.2 ∈ directives := by
  unfold LineVariant.lineEntry at h
  by_cases hc : LineVariant.isComment line
  · rw [if_pos hc] at h; cases h
  · rw [if_neg hc] at h
    cases hp : LineVariant.parseLine line with
    | none => rw [hp] at h; cases h
    | some pr =>
        rw [hp] at h
        obtain ⟨fp, d⟩ := pr
        have h2 : d ∈ directives ∧ (toPlatformPath fp, d) = e := by simpa using h
        rw [← h2.2]
        simpa using h2.1

theorem YamlVariant.entryPaths_valid (ent : String × YamlVariant.ConfigEntry)
    (e : String × String) (h : e ∈ YamlVariant.entryPaths ent) : e.2 ∈ directives := by
  unfold YamlVariant.entryPaths at h
  by_cases hd : ent.1 ∈ directives
  · rw [if_pos (by simpa using hd)] at h
    obtain ⟨v, hv, he⟩ := List.mem_filterMap.mp h
    cases v with
    | scalar s2 =>
        injection he with h2
        rw [← h2]
        simpa using hd
    | other => cases he
  · rw [if_neg (by simpa using hd)] at h
    cases h

theorem spec_invariant (es : List (String × String)) (defaults : Spec)
    (hes : ∀ e ∈ es, e.2 ∈ directives)
    (hdef : ∀ e ∈ defaults, e.2 ∈ validDirectives ∧ (e.2 = "merge" → e.1 = "package.json"))
    (k v : String) (h : specGet (applyEntries es defaults) k = some v) :
    v ∈ validDirectives ∧ (v = "merge" → k = "package.json") := by
  have hm := specGet_mem _ _ _ h
  rcases (mem_applyEntries es defaults _).mp hm with he | hd
  · have h2 := hes _ he
    constructor
    · have h3 : v = "ignore" ∨ v = "delete" ∨ v = "replace" := by
        simpa [directives] using h2
      rcases h3 with rfl | rfl | rfl <;> simp [validDirectives]
    · intro hv
      rw [hv] at h2
      simp [directives] at h2
  · exact hdef _ hd

/-- C10: every value of a Spec the program constructs is one of ignore,
delete, replace or merge; a value merge can only sit at the key
package.json (it comes from the defaults, since the recognized token list
used to validate configuration entries does not contain merge). -/
theorem C10_spec_values_invariant :
    (∀ (o : LineVariant.ReadOutcome) (k v : String),
        specGet (LineVariant.readSpec o).1 k = some v →
        v ∈ validDirectives ∧ (v = "merge" → k = "package.json")) ∧
    (∀ (y : YamlVariant.YamlOutcome) (s : Spec) (k v : String),
        (YamlVariant.readConfig y).1 = some s →
        specGet s k = some v →
        v ∈ validDirectives ∧ (v = "merge" → k = "package.json")) ∧
    "merge" ∉ directives := by
  refine ⟨?_, ?_, by decide⟩
  · intro o k v h
    rw [LineVariant.readSpec_fst] at h
    refine spec_invariant _ _ ?_ (by decide) k v h
    intro e he
    cases o with
    | noFile => cases he
    | readError => cases he
    | content s =>
        obtain ⟨line, hline, hle⟩ := List.mem_filterMap.mp he
        exact LineVariant.lineEntry_valid line e hle
  · intro y s k v hy h
    cases y with
    | noFile => cases hy
    | failed => cases hy
    | doc c =>
        have hy2 : some (YamlVariant.normalizeConfig
            (c.getD (⟨none⟩ : YamlVariant.Config))).1 = some s := hy
        injection hy2 with hs
        rw [← hs, YamlVariant.normalizeConfig_fst] at h
        refine spec_invariant _ _ ?_ (by decide) k v h
        intro e he
        obtain ⟨ent, hent, hep⟩ := List.mem_flatMap.mp he
        exact YamlVariant.entryPaths_valid ent e hep

/-- Witness for C10 on concrete constructions of both variants. -/
theorem C10_spec_values_invariant_witness :
    (specGet (LineVariant.readSpec LineVariant.ReadOutcome.noFile).1 "package.json" =
        some "merge" ∧
      ("merge" ∈ validDirectives ∧ ("merge" = "merge" → "package.json" = "package.json"))) ∧
    ((YamlVariant.readConfig (YamlVariant.YamlOutcome.doc (some yamlW))).1 =
        some (YamlVariant.normalizeConfig yamlW).1 ∧
      specGet (YamlVariant.normalizeConfig yamlW).1 "node_modules" = some "ignore" ∧
      ("ignore" ∈ validDirectives ∧ ("ignore" = "merge" → "node_modules" = "package.json"))) :=
  ⟨⟨by decide,
    C10_spec_values_invariant.1 LineVariant.ReadOutcome.noFile "package.json" "merge"
      (by decide)⟩,
   ⟨rfl, by decide,
    C10_spec_values_invariant.2.1 (YamlVariant.YamlOutcome.doc (some yamlW))
      (YamlVariant.normalizeConfig yamlW).1 "node_modules" "ignore" rfl (by decide)⟩⟩

theorem specWF_value (s : Spec) (hwf : specWF s = true) (k v : String)
    (h : specGet s k = some v) : v ∈ validDirectives := by
  have hm := specGet_mem _ _ _ h
  have h2 := List.all_eq_true.mp hwf _ hm
  simpa using h2

/-- C2: a top-level template entry is copied by the copy phase iff the Spec
has no directive for its name or the directive is exactly replace (stated
for every Spec whose values are directive strings, as all constructed Specs
are). -/
theorem C2_top_level_copy_iff (spec : Spec) (hwf : specWF spec = true)
    (files : List String) (f : String) :
    f ∈ copiedFiles spec files ↔
      (f ∈ files ∧ (specGet spec f = none ∨ specGet spec f = some "replace")) := by
  unfold copiedFiles
  rw [List.mem_filter]
  refine and_congr_right (fun _ => ?_)
  unfold skip
  cases hg : specGet spec f with
  | none => simp
  | some d =>
      have hv : d ∈ validDirectives := specWF_value spec hwf f d hg
      have hne : d ≠ "" := by
        rcases (by simpa [validDirectives] using hv :
          d = "ignore" ∨ d = "delete" ∨ d = "replace" ∨ d = "merge") with
          rfl | rfl | rfl | rfl <;> decide
      simp [jsTruthy, hne]

/-- Witness for C2: the scenario of the spec, with the defaults-only Spec
and a template root holding a.txt, node_modules and package.json. -/
theorem C2_top_level_copy_iff_witness :
    specWF LineVariant.defaultSpec = true ∧
    ("a.txt" ∈ copiedFiles LineVariant.defaultSpec
        ["a.txt", "node_modules", "package.json"] ↔
      ("a.txt" ∈ ["a.txt", "node_modules", "package.json"] ∧
        (specGet LineVariant.defaultSpec "a.txt" = none ∨
         specGet LineVariant.defaultSpec "a.txt" = some "replace"))) :=
  ⟨by decide,
   C2_top_level_copy_iff LineVariant.defaultSpec (by decide)
     ["a.txt", "node_modules", "package.json"] "a.txt"⟩

mutual
theorem treePaths_take : ∀ (t : FsTree) (p q : List String),
    q ∈ treePaths p t →
      q.take (p.length + 1) = p ++ [t.name] ∧ p.length < q.length
  | .file n, p, q, hq => by
      have hq2 : q = p ++ [n] := by simpa [treePaths] using hq
      subst hq2
      exact ⟨List.take_of_length_le (by simp), by simp⟩
  | .dir n cs, p, q, hq => by
      have hq2 : q = p ++ [n] ∨ q ∈ forestPaths (p ++ [n]) cs := by
        simpa [treePaths] using hq
      rcases hq2 with rfl | hmem
      · exact ⟨List.take_of_length_le (by simp), by simp⟩
      · obtain ⟨h1, h2⟩ := forestPaths_take cs (p ++ [n]) q hmem
        simp only [List.length_append, List.length_cons, List.length_nil,
          Nat.zero_add] at h1 h2
        exact ⟨h1, by omega⟩
theorem forestPaths_take : ∀ (f : FsForest) (p q : List String),
    q ∈ forestPaths p f → q.take p.length = p ∧ p.length < q.length
  | .fnil, p, q, hq => by simp [forestPaths] at hq
  | .fcons t ts, p, q, hq => by
      have hq2 : q ∈ treePaths p t ∨ q ∈ forestPaths p ts := by
        simpa [forestPaths] using hq
      rcases hq2 with hl | hr
      · obtain ⟨h1, h2⟩ := treePaths_take t p q hl
        constructor
        · have h3 : q.take p.length = (q.take (p.length + 1)).take p.length := by
            rw [List.take_take]
            congr 1
            omega
          rw [h3, h1]
          exact List.take_left' rfl
        · omega
      · exact forestPaths_take ts p q hr
end

mutual
theorem mem_matTreePaths : ∀ (spec : Spec) (t : FsTree) (p q : List String),
    q ∈ matTreePaths spec p t ↔
      (q ∈ treePaths p t ∧
        ∀ i, p.length < i → i ≤ q.length →
          skip spec (joinPath (q.take i)) = false)
  | spec, .file n, p, q => by
      cases hs : skip spec (joinPath (p ++ [n])) with
      | true =>
          have hmat : matTreePaths spec p (FsTree.file n) = [] := by
            unfold matTreePaths copyTree
            rw [if_pos hs]
          rw [hmat]
          constructor
          · intro h; cases h
          · rintro ⟨hq, hC⟩
            have hq2 : q = p ++ [n] := by simpa [treePaths] using hq
            subst hq2
            have h3 := hC (p.length + 1) (by omega) (by simp)
            rw [List.take_of_length_le (by simp)] at h3
            rw [hs] at h3
            simp at h3
      | false =>
          have hmat : matTreePaths spec p (FsTree.file n) = [p ++ [n]] := by
            unfold matTreePaths copyTree
            rw [if_neg (by simp [hs])]
            rfl
          rw [hmat]
          constructor
          · intro h
            have hq2 : q = p ++ [n] := by simpa using h
            subst hq2
            refine ⟨by simp [treePaths], ?_⟩
            intro i h1 h2
            have hi : i = p.length + 1 := by
              simp only [List.length_append, List.length_cons, List.length_nil,
                Nat.zero_add] at h2
              omega
            subst hi
            rw [List.take_of_length_le (by simp)]
            exact hs
          · rintro ⟨hq, _⟩
            simpa [treePaths] using hq
  | spec, .dir n cs, p, q => by
      cases hs : skip spec (joinPath (p ++ [n])) with
      | true =>
          have hmat : matTreePaths spec p (FsTree.dir n cs) = [] := by
            unfold matTreePaths copyTree
            rw [if_pos hs]
          rw [hmat]
          constructor
          · intro h; cases h
          · rintro ⟨hq, hC⟩
            obtain ⟨h1, h2⟩ := treePaths_take (FsTree.dir n cs) p q hq
            have h3 := hC (p.length + 1) (by omega) (by omega)
            rw [h1] at h3
            simp only [FsTree.name] at h3
            rw [hs] at h3
            simp at h3
      | false =>
          have hmat : matTreePaths spec p (FsTree.dir n cs) =
              (p ++ [n]) :: forestPaths (p ++ [n]) (copyForest spec (p ++ [n]) cs) := by
            unfold matTreePaths copyTree
            rw [if_neg (by simp [hs])]
            rfl
          rw [hmat]
          by_cases hqr : q = p ++ [n]
          · subst hqr
            constructor
            · intro _
              refine ⟨by simp [treePaths], ?_⟩
              intro i hi1 hi2
              have hi : i = p.length + 1 := by
                simp only [List.length_append, List.length_cons, List.length_nil,
                  Nat.zero_add] at hi2
                omega
              subst hi
              rw [List.take_of_length_le (by simp)]
              exact hs
            · intro _
              simp
          · have hlhs : (q ∈ (p ++ [n]) ::
                forestPaths (p ++ [n]) (copyForest spec (p ++ [n]) cs)) ↔
                q ∈ forestPaths (p ++ [n]) (copyForest spec (p ++ [n]) cs) := by
              simp [hqr]
            rw [hlhs, mem_copyForestPaths spec cs (p ++ [n]) q]
            constructor
            · rintro ⟨hmem, hC⟩
              obtain ⟨ht1, ht2⟩ := forestPaths_take cs (p ++ [n]) q hmem
              refine ⟨by simp [treePaths, hmem], ?_⟩
              intro i hi1 hi2
              by_cases hii : i ≤ p.length + 1
              · have hi : i = p.length + 1 := by omega
                subst hi
                have hlen : (p ++ [n]).length = p.length + 1 := by simp
                rw [← hlen, ht1]
                exact hs
              · refine hC i ?_ hi2
                simp only [List.length_append, List.length_cons, List.length_nil,
                  Nat.zero_add]
                omega
            · rintro ⟨hmem, hC⟩
              have hmem2 : q ∈ forestPaths (p ++ [n]) cs := by
                have h5 : q = p ++ [n] ∨ q ∈ forestPaths (p ++ [n]) cs := by
                  simpa [treePaths] using hmem
                rcases h5 with h | h
                · exact absurd h hqr
                · exact h
              refine ⟨hmem2, ?_⟩
              intro i hi1 hi2
              refine hC i ?_ hi2
              simp only [List.length_append, List.length_cons, List.length_nil,
                Nat.zero_add] at hi1
              omega
theorem mem_copyForestPaths : ∀ (spec : Spec) (f : FsForest) (p q : List String),
    q ∈ forestPaths p (copyForest spec p f) ↔
      (q ∈ forestPaths p f ∧
        ∀ i, p.length < i → i ≤ q.length →
          skip spec (joinPath (q.take i)) = false)
  | spec, .fnil, p, q => by
      simp [copyForest, forestPaths]
  | spec, .fcons t ts, p, q => by
      have hsplit : forestPaths p (copyForest spec p (FsForest.fcons t ts)) =
          matTreePaths spec p t ++ forestPaths p (copyForest spec p ts) := by
        cases hct : copyTree spec p t with
        | none => simp [copyForest, matTreePaths, hct]
        | some t2 => simp [copyForest, matTreePaths, hct, forestPaths]
      rw [hsplit]
      rw [List.mem_append, mem_matTreePaths spec t p q, mem_copyForestPaths spec ts p q]
      constructor
      · rintro (⟨h1, hC⟩ | ⟨h1, hC⟩)
        · exact ⟨by simp [forestPaths, h1], hC⟩
        · exact ⟨by simp [forestPaths, h1], hC⟩
      · rintro ⟨h1, hC⟩
        have h2 : q ∈ treePaths p t ∨ q ∈ forestPaths p ts := by
          simpa [forestPaths] using h1
        rcases h2 with h | h
        · exact Or.inl ⟨h, hC⟩
        · exact Or.inr ⟨h, hC⟩
end

/-- C3 (amended): under a top-level entry that is itself copied, a nested
path is excluded from the copy iff the Spec holds a non-replace directive
for it or for one of its ancestors inside the entry (the claim as written,
with the directive required on the nested path itself, is refuted by
C3_nested_exclusion_counterexample: excluding a directory prunes everything
below it). -/
theorem C3_nested_exclusion (spec : Spec) (t : FsTree) (q : List String)
    (_hroot : skip spec (joinPath [t.name]) = false)
    (hq : q ∈ treePaths [] t) (_hnest : q ≠ [t.name]) :
    q ∉ matTreePaths spec [] t ↔
      ∃ i, 0 < i ∧ i ≤ q.length ∧ skip spec (joinPath (q.take i)) = true := by
  have h := mem_matTreePaths spec t [] q
  constructor
  · intro hex
    by_contra hni
    push_neg at hni
    refine hex (h.mpr ⟨hq, ?_⟩)
    intro i h1 h2
    cases hsk : skip spec (joinPath (q.take i)) with
    | false => rfl
    | true => exact absurd hsk (hni i (by simpa using h1) h2)
  · rintro ⟨i, h1, h2, h3⟩ hmem
    have h4 := (h.mp hmem).2 i (by simpa using h1) h2
    rw [h4] at h3
    simp at h3

/-- C3 as frozen is false: with a directive ignore for a/b, the nested path
a/b/c is excluded from the copy of the top-level entry a although the Spec
holds no directive for a/b/c itself. -/
theorem C3_nested_exclusion_counterexample :
    skip exSpec (joinPath ["a"]) = false ∧
    ["a", "b", "c"] ∈ treePaths [] exTree ∧
    ["a", "b", "c"] ∉ matTreePaths exSpec [] exTree ∧
    skip exSpec (joinPath ["a", "b", "c"]) = false ∧
    ¬ ((["a", "b", "c"] ∉ matTreePaths exSpec [] exTree) ↔
        skip exSpec (joinPath ["a", "b", "c"]) = true) := by decide

/-- Witness for the amended C3 at the same concrete input. -/
theorem C3_nested_exclusion_witness :
    skip exSpec (joinPath [exTree.name]) = false ∧
    ["a", "b", "c"] ∈ treePaths [] exTree ∧
    ["a", "b", "c"] ≠ [exTree.name] ∧
    ((["a", "b", "c"] ∉ matTreePaths exSpec [] exTree) ↔
      ∃ i, 0 < i ∧ i ≤ (["a", "b", "c"] : List String).length ∧
        skip exSpec (joinPath ((["a", "b", "c"] : List String).take i)) = true) :=
  ⟨by decide, by decide, by decide,
   C3_nested_exclusion exSpec exTree ["a", "b", "c"] (by decide) (by decide) (by decide)⟩

theorem objGet_cons (p : String × JsVal) (l : JsObj) (k : String) :
    objGet (p :: l) k = if p.1 == k then some p.2 else objGet l k := by
  unfold objGet
  simp only [List.find?]
  cases hp : (p.1 == k) with
  | true => simp [hp]
  | false => simp [hp]

theorem objGet_append_obj (a b : JsObj) (k : String) :
    objGet (a ++ b) k = (objGet a k).or (objGet b k) := by
  simp [objGet, List.find?_append, Option.map_or']

theorem objGet_isSome_any (m : JsObj) (k : String) (w : JsVal)
    (h : objGet m k = some w) : m.any (fun p => p.1 == k) = true := by
  unfold objGet at h
  cases hf : m.find? (fun p => p.1 == k) with
  | none => rw [hf] at h; cases h
  | some p =>
      have hp := List.find?_some hf
      have hm := List.mem_of_find?_eq_some hf
      exact List.any_eq_true.mpr ⟨p, hm, hp⟩

theorem objGet_map_set (m : JsObj) (k : String) (v : JsVal)
    (h : m.any (fun p => p.1 == k) = true) :
    objGet (m.map (fun p => if p.1 == k then (k, v) else p)) k = some v := by
  induction m with
  | nil => simp at h
  | cons p rest ih =>
      simp only [List.map_cons]
      by_cases hp : (p.1 == k) = true
      · rw [if_pos hp, objGet_cons]
        simp
      · rw [if_neg hp, objGet_cons, if_neg (by simpa using hp)]
        apply ih
        simpa [List.any_cons, hp] using h

theorem objGet_map_set_other (m : JsObj) (k : String) (v : JsVal) (k' : String)
    (h : k' ≠ k) :
    objGet (m.map (fun p => if p.1 == k then (k, v) else p)) k' = objGet m k' := by
  induction m with
  | nil => rfl
  | cons p rest ih =>
      simp only [List.map_cons]
      by_cases hp : (p.1 == k) = true
      · have hpk : p.1 = k := by simpa using hp
        rw [if_pos hp, objGet_cons, objGet_cons]
        have h1 : ((k, v).1 == k') = false := by simpa using Ne.symm h
        have h2 : (p.1 == k') = false := by rw [hpk]; simpa using Ne.symm h
        rw [h1, h2]
        simp only [Bool.false_eq_true, if_false]
        exact ih
      · rw [if_neg hp, objGet_cons, objGet_cons, ih]

theorem objGet_objSet_self (m : JsObj) (k : String) (v : JsVal) :
    objGet (objSet m k v) k = some v := by
  unfold objSet
  by_cases h : (m.any (fun p => p.1 == k)) = true
  · rw [if_pos h]
    exact objGet_map_set m k v h
  · rw [if_neg h, objGet_append_obj]
    cases hg : objGet m k with
    | some w => exact absurd (objGet_isSome_any m k w hg) h
    | none =>
        rw [Option.none_or]
        simp [objGet]

theorem objGet_objSet_other (m : JsObj) (k : String) (v : JsVal) (k' : String)
    (h : k' ≠ k) : objGet (objSet m k v) k' = objGet m k' := by
  unfold objSet
  by_cases hm : (m.any (fun p => p.1 == k)) = true
  · rw [if_pos hm]
    exact objGet_map_set_other m k v k' h
  · rw [if_neg hm, objGet_append_obj]
    have h1 : objGet [(k, v)] k' = none := by
      simp [objGet, List.find?, show (k == k') = false from by simpa using Ne.symm h]
    rw [h1, Option.or_none]

theorem objGet_objDrop_self (m : JsObj) (k : String) :
    objGet (objDrop m k) k = none := by
  have h : (m.filter (fun p => p.1 != k)).find? (fun p => p.1 == k) = none := by
    rw [List.find?_eq_none]
    intro x hx
    have h2 := (List.mem_filter.mp hx).2
    simpa using h2
  simp [objGet, objDrop, h]

theorem objGet_objDrop_other (m : JsObj) (k k' : String) (h : k' ≠ k) :
    objGet (objDrop m k) k' = objGet m k' := by
  induction m with
  | nil => rfl
  | cons p rest ih =>
      by_cases hp : (p.1 != k) = true
      · have h1 : objDrop (p :: rest) k = p :: objDrop rest k := by
          simp [objDrop, List.filter_cons, hp]
        rw [h1, objGet_cons, objGet_cons, ih]
      · have hpk : p.1 = k := by simpa using hp
        have h1 : objDrop (p :: rest) k = objDrop rest k := by
          simp [objDrop, List.filter_cons, hp]
        rw [h1, ih, objGet_cons]
        rw [show (p.1 == k') = false from by rw [hpk]; simpa using Ne.symm h]
        simp

theorem lastFieldFor_cons (p : String × JsVal) (rest : JsObj) (k : String) :
    lastFieldFor (p :: rest) k =
      (lastFieldFor rest k).or (if p.1 == k then some p.2 else none) := by
  unfold lastFieldFor
  rw [List.reverse_cons, List.find?_append, Option.map_or']
  congr 1
  by_cases hp : (p.1 == k) = true
  · rw [if_pos hp]
    simp [List.find?, hp]
  · rw [if_neg hp]
    simp [List.find?, show (p.1 == k) = false from by simpa using hp]

theorem objGet_assignFields (b : JsObj) : ∀ (a : JsObj) (k : String),
    objGet (assignFields a b) k = (lastFieldFor b k).or (objGet a k) := by
  induction b with
  | nil =>
      intro a k
      simp [assignFields, lastFieldFor]
  | cons kv rest ih =>
      intro a k
      have h1 : assignFields a (kv :: rest) = assignFields (objSet a kv.1 kv.2) rest := rfl
      rw [h1, ih, lastFieldFor_cons]
      cases hl : lastFieldFor rest k with
      | some w => simp
      | none =>
          simp only [Option.none_or]
          by_cases hp : (kv.1 == k) = true
          · have hk : kv.1 = k := by simpa using hp
            rw [if_pos hp]
            subst hk
            rw [objGet_objSet_self]
            simp
          · have hk : k ≠ kv.1 := fun hh => by simp [hh] at hp
            rw [if_neg hp, objGet_objSet_other a kv.1 kv.2 k hk]
            simp

theorem lastFieldFor_eq_objGet (m : JsObj) (h : (m.map Prod.fst).Nodup)
    (k : String) : lastFieldFor m k = objGet m k := by
  induction m with
  | nil => rfl
  | cons p rest ih =>
      rw [List.map_cons, List.nodup_cons] at h
      obtain ⟨hnot, hnd⟩ := h
      rw [lastFieldFor_cons, objGet_cons, ih hnd]
      by_cases hp : (p.1 == k) = true
      · have hpk : p.1 = k := by simpa using hp
        rw [if_pos hp, if_pos hp]
        have hnone : objGet rest k = none := by
          have hfind : rest.find? (fun q => q.1 == k) = none := by
            rw [List.find?_eq_none]
            intro x hx hbeq
            refine hnot ?_
            have hxk : x.1 = k := by simpa using hbeq
            rw [hpk, ← hxk]
            exact List.mem_map.mpr ⟨x, hx, rfl⟩
          unfold objGet
          rw [hfind]
          rfl
        rw [hnone]
        rfl
      · rw [if_neg hp, if_neg hp]
        simp

theorem objSet_map_fst (m : JsObj) (k : String) (v : JsVal)
    (h : (m.any (fun p => p.1 == k)) = true) :
    (objSet m k v).map Prod.fst = m.map Prod.fst := by
  unfold objSet
  rw [if_pos h, List.map_map]
  apply List.map_congr_left
  intro p _
  by_cases hp : (p.1 == k) = true
  · have hpk : p.1 = k := by simpa using hp
    simp [Function.comp, hp, hpk]
  · simp [Function.comp, hp]

theorem templateAtMergeTime_get_other (template appPre : JsObj) (k : String)
    (h : k ≠ "dependencies") :
    objGet (templateAtMergeTime template appPre) k = objGet template k := by
  unfold templateAtMergeTime
  cases hg : objGet template "dependencies" with
  | none => rfl
  | some v =>
      cases v with
      | obj fs => exact objGet_objSet_other _ _ _ _ h
      | null => rfl
      | bool b => rfl
      | num n => rfl
      | str s => rfl
      | arr xs => rfl

theorem templateAtMergeTime_nodup (template appPre : JsObj)
    (h : (template.map Prod.fst).Nodup) :
    ((templateAtMergeTime template appPre).map Prod.fst).Nodup := by
  unfold templateAtMergeTime
  cases hg : objGet template "dependencies" with
  | none => exact h
  | some v =>
      cases v with
      | obj fs =>
          rw [objSet_map_fst]
          · exact h
          · exact objGet_isSome_any _ _ _ hg
      | null => exact h
      | bool b => exact h
      | num n => exact h
      | str s => exact h
      | arr xs => exact h

theorem templateAtMergeTime_get_deps_of_absent (template appPre : JsObj)
    (hdT : objOrAbsentAt template "dependencies" = true)
    (hpre : objGet appPre "dependencies" = none) :
    objGet (templateAtMergeTime template appPre) "dependencies" =
      objGet template "dependencies" := by
  unfold templateAtMergeTime
  cases hg : objGet template "dependencies" with
  | none => exact hg
  | some v =>
      cases v with
      | obj fs =>
          rw [objGet_objSet_self]
          have hrem : remainingDependencies template appPre = fs := by
            unfold remainingDependencies depsFields
            rw [hpre, hg]
            simp [fieldsOf]
          rw [hrem]
      | null => simp [objOrAbsentAt, hg] at hdT
      | bool b => simp [objOrAbsentAt, hg] at hdT
      | num n => simp [objOrAbsentAt, hg] at hdT
      | str s => simp [objOrAbsentAt, hg] at hdT
      | arr xs => simp [objOrAbsentAt, hg] at hdT

theorem scriptsFields_templateAtMergeTime (template appPre : JsObj) :
    scriptsFields (templateAtMergeTime template appPre) = scriptsFields template := by
  unfold scriptsFields
  rw [templateAtMergeTime_get_other template appPre "scripts" (by decide)]

theorem objGet_eq_none_of_not_hasKey (m : JsObj) (k : String)
    (h : objHasKey m k = false) : objGet m k = none := by
  have hfind : m.find? (fun p => p.1 == k) = none := by
    rw [List.find?_eq_none]
    intro x hx hbeq
    have h2 : m.any (fun p => p.1 == k) = true := List.any_eq_true.mpr ⟨x, hx, hbeq⟩
    rw [objHasKey] at h
    rw [h2] at h
    cases h
  unfold objGet
  rw [hfind]
  rfl

theorem objGet_ne_none_of_hasKey (m : JsObj) (k : String)
    (h : objHasKey m k = true) : objGet m k ≠ none := by
  intro hnone
  obtain ⟨x, hx, hbeq⟩ := List.any_eq_true.mp h
  have hfind : m.find? (fun p => p.1 == k) = none := by
    cases hf : m.find? (fun p => p.1 == k) with
    | none => rfl
    | some p =>
        unfold objGet at hnone
        rw [hf] at hnone
        cases hnone
  exact absurd hbeq (List.find?_eq_none.mp hfind x hx)

theorem mergedBase_get_other (t a : JsObj) (k : String) (hk1 : k ≠ "scripts") :
    objGet (mergedBase t a) k = (lastFieldFor a k).or (lastFieldFor t k) := by
  unfold mergedBase
  rw [objGet_objSet_other _ _ _ _ hk1, objGet_assignFields, objGet_assignFields]
  simp [objGet]

theorem mergedBase_get_scripts (t a : JsObj) :
    objGet (mergedBase t a) "scripts" = some (JsVal.obj (mergedScriptsFields t a)) := by
  unfold mergedBase
  exact objGet_objSet_self _ _ _

theorem mergedPackageJson_get_other (t a : JsObj) (k : String)
    (hk1 : k ≠ "scripts") (hk2 : k ≠ "eslintConfig") :
    objGet (mergedPackageJson t a) k = (lastFieldFor a k).or (lastFieldFor t k) := by
  unfold mergedPackageJson
  cases hjs : jsOr (objGet t "eslintConfig") (objGet a "eslintConfig") with
  | some v =>
      rw [objGet_objSet_other _ _ _ _ hk2]
      exact mergedBase_get_other t a k hk1
  | none =>
      rw [objGet_objDrop_other _ _ _ hk2]
      exact mergedBase_get_other t a k hk1

theorem mergedPackageJson_get_scripts (t a : JsObj) :
    objGet (mergedPackageJson t a) "scripts" =
      some (JsVal.obj (mergedScriptsFields t a)) := by
  unfold mergedPackageJson
  cases hjs : jsOr (objGet t "eslintConfig") (objGet a "eslintConfig") with
  | some v =>
      rw [objGet_objSet_other _ _ _ _ (by decide)]
      exact mergedBase_get_scripts t a
  | none =>
      rw [objGet_objDrop_other _ _ _ (by decide)]
      exact mergedBase_get_scripts t a

theorem mergedPackageJson_get_eslint (t a : JsObj) :
    objGet (mergedPackageJson t a) "eslintConfig" =
      jsOr (objGet t "eslintConfig") (objGet a "eslintConfig") := by
  unfold mergedPackageJson
  cases hjs : jsOr (objGet t "eslintConfig") (objGet a "eslintConfig") with
  | some v => rw [objGet_objSet_self]
  | none => rw [objGet_objDrop_self]

/-- C4 as frozen is false on the lint-configuration clause: the merge uses
JavaScript truthiness, not presence.  With a template manifest whose
eslintConfig is present but null and a baseline with its own eslintConfig,
the written manifest carries the baseline's value, not the template's. -/
theorem C4_manifest_merge_counterexample :
    objGet tplC "eslintConfig" = some JsVal.null ∧
    objGet (mergeStage tplC appC appC) "eslintConfig" = some (JsVal.str "app-config") ∧
    some (JsVal.str "app-config") ≠ some JsVal.null := by
  refine ⟨rfl, rfl, ?_⟩
  intro h
  exact JsVal.noConfusion (Option.some.inj h)

/-- C4 (amended): when the directive for the manifest is merge and both
manifests parse (with unique keys, scripts an object when present, and
dependencies an object when present), the manifest written to the target
equals the template manifest's fields overlaid by the fields of the baseline
manifest as re-read after installation (baseline wins field-for-field),
except that scripts equals the baseline's scripts overlaid by the template's
scripts (template wins per script), and eslintConfig equals the template's
value when that value is present and JavaScript-truthy, else the
baseline's. -/
theorem C4_manifest_merge (template appPre appPost : JsObj)
    (hT : (template.map Prod.fst).Nodup)
    (hA : (appPost.map Prod.fst).Nodup)
    (_hsT : objOrAbsentAt template "scripts" = true)
    (_hsA : objOrAbsentAt appPost "scripts" = true)
    (hsTn : ((scriptsFields template).map Prod.fst).Nodup)
    (hsAn : ((scriptsFields appPost).map Prod.fst).Nodup)
    (hdT : objOrAbsentAt template "dependencies" = true)
    (_hdPre : objOrAbsentAt appPre "dependencies" = true)
    (_hdPost : objOrAbsentAt appPost "dependencies" = true)
    (hlink : objHasKey appPre "dependencies" = false ∨
             objHasKey appPost "dependencies" = true) :
    (∀ k, k ≠ "scripts" → k ≠ "eslintConfig" →
        objGet (mergeStage template appPre appPost) k =
          (objGet appPost k).or (objGet template k)) ∧
    (objGet (mergeStage template appPre appPost) "scripts" =
        some (JsVal.obj (mergedScriptsFields template appPost)) ∧
      ∀ sk, objGet (mergedScriptsFields template appPost) sk =
          (objGet (scriptsFields template) sk).or (objGet (scriptsFields appPost) sk)) ∧
    (objGet (mergeStage template appPre appPost) "eslintConfig" =
        match objGet template "eslintConfig" with
        | some v => if jsTruthyVal v then some v else objGet appPost "eslintConfig"
        | none => objGet appPost "eslintConfig") := by
  have htn : ((templateAtMergeTime template appPre).map Prod.fst).Nodup :=
    templateAtMergeTime_nodup template appPre hT
  refine ⟨?_, ⟨?_, ?_⟩, ?_⟩
  · intro k hk1 hk2
    unfold mergeStage
    rw [mergedPackageJson_get_other _ _ k hk1 hk2,
      lastFieldFor_eq_objGet appPost hA k,
      lastFieldFor_eq_objGet _ htn k]
    by_cases hkd : k = "dependencies"
    · subst hkd
      cases hga : objGet appPost "dependencies" with
      | some w => simp
      | none =>
          rcases hlink with hpre | hpost
          · rw [templateAtMergeTime_get_deps_of_absent template appPre hdT
              (objGet_eq_none_of_not_hasKey appPre "dependencies" hpre)]
          · exact absurd hga (objGet_ne_none_of_hasKey appPost "dependencies" hpost)
    · rw [templateAtMergeTime_get_other template appPre k hkd]
  · unfold mergeStage
    rw [mergedPackageJson_get_scripts]
    unfold mergedScriptsFields
    rw [scriptsFields_templateAtMergeTime]
  · intro sk
    unfold mergedScriptsFields
    rw [objGet_assignFields, objGet_assignFields,
      lastFieldFor_eq_objGet _ hsTn sk, lastFieldFor_eq_objGet _ hsAn sk]
    simp [objGet]
  · unfold mergeStage
    rw [mergedPackageJson_get_eslint,
      templateAtMergeTime_get_other template appPre "eslintConfig" (by decide)]
    cases objGet template "eslintConfig" with
    | none => rfl
    | some v => rfl

/-- Witness for the amended C4 at the script-merge scenario of the spec,
plus the concrete merged script set. -/
theorem C4_manifest_merge_witness :
    ((tplW.map Prod.fst).Nodup ∧
     (appPostW.map Prod.fst).Nodup ∧
     objOrAbsentAt tplW "scripts" = true ∧
     objOrAbsentAt appPostW "scripts" = true ∧
     ((scriptsFields tplW).map Prod.fst).Nodup ∧
     ((scriptsFields appPostW).map Prod.fst).Nodup ∧
     objOrAbsentAt tplW "dependencies" = true ∧
     objOrAbsentAt appPreW "dependencies" = true ∧
     objOrAbsentAt appPostW "dependencies" = true ∧
     objHasKey appPostW "dependencies" = true) ∧
    ((∀ k, k ≠ "scripts" → k ≠ "eslintConfig" →
        objGet (mergeStage tplW appPreW appPostW) k =
          (objGet appPostW k).or (objGet tplW k)) ∧
     (objGet (mergeStage tplW appPreW appPostW) "scripts" =
        some (JsVal.obj (mergedScriptsFields tplW appPostW)) ∧
      ∀ sk, objGet (mergedScriptsFields tplW appPostW) sk =
          (objGet (scriptsFields tplW) sk).or (objGet (scriptsFields appPostW) sk)) ∧
     (objGet (mergeStage tplW appPreW appPostW) "eslintConfig" =
        match objGet tplW "eslintConfig" with
        | some v => if jsTruthyVal v then some v else objGet appPostW "eslintConfig"
        | none => objGet appPostW "eslintConfig")) ∧
    (objGet (mergedScriptsFields tplW appPostW) "build" =
        some (JsVal.str "custom-build") ∧
     objGet (mergedScriptsFields tplW appPostW) "test" =
        some (JsVal.str "react-scripts test")) :=
  ⟨⟨by decide, by decide, by decide, by decide, by decide, by decide,
    by decide, by decide, by decide, by decide⟩,
   C4_manifest_merge tplW appPreW appPostW (by decide) (by decide) (by decide)
     (by decide) (by decide) (by decide) (by decide) (by decide) (by decide)
     (Or.inr (by decide)),
   ⟨rfl, rfl⟩⟩

/-- C5: the frozen claim fails on the line-oriented revision, whose
dependency subtraction removes the three hardcoded create-react-app names
instead of the baseline manifest's dependency names (its own TODO records
the intended behavior).  With a baseline manifest that already holds lodash
and a template also declaring lodash, the install invocation of the
line-oriented revision still carries lodash (first conjunct), while the
YAML revision's subtraction, which does read the baseline manifest, omits it
(third conjunct). -/
theorem C5_install_set_bug_eval :
    installArgs (dependenciesToInstallLegacy tpl5) =
      ["install", "--save", "--loglevel", "error", "lodash@^4.0.0"] ∧
    objHasKey (depsFields app5) "lodash" = true ∧
    installArgs (remainingDependencies tpl5 app5) =
      ["install", "--save", "--loglevel", "error"] := by
  refine ⟨rfl, rfl, rfl⟩

/-- The YAML-revision subtraction does satisfy the claim: every dependency
it passes to install comes from the template manifest and its name is not
among the baseline manifest's dependency names. -/
theorem remainingDependencies_excludes_app_deps (template appPre : JsObj)
    (p : String × JsVal) (hp : p ∈ remainingDependencies template appPre) :
    p ∈ depsFields template ∧ objHasKey (depsFields appPre) p.1 = false := by
  have h := List.mem_filter.mp hp
  refine ⟨h.1, ?_⟩
  simpa [objHasKey] using h.2

/-- C7: on the YAML revision the loader does not fall back to the defaults.
With no configuration artifact (or an unreadable one) readConfig returns an
object without a spec mapping, and the deletion phase then throws a
TypeError (Object.keys of undefined), aborting the run through the
unexpected-error handler; the line-oriented revision does return the
defaults in both situations. -/
theorem C7_config_loader_bug_eval :
    (YamlVariant.readConfig YamlVariant.YamlOutcome.noFile) = (none, []) ∧
    (YamlVariant.readConfig YamlVariant.YamlOutcome.failed) =
      (none, [Warning.readFailed "craft.yaml"]) ∧
    deletePhase none (fun _ => false) =
      Except.error (RunError.typeError "Cannot convert undefined or null to object") ∧
    (LineVariant.readSpec LineVariant.ReadOutcome.noFile) =
      (LineVariant.defaultSpec, []) ∧
    (LineVariant.readSpec LineVariant.ReadOutcome.readError) =
      (LineVariant.defaultSpec, [Warning.readFailed "craft.spec"]) := by
  refine ⟨rfl, rfl, rfl, rfl, rfl⟩

theorem promiseAll_resolved (ps : List Settled)
    (h : ∀ s ∈ ps, s = Settled.resolved) : promiseAll ps = Settled.resolved := by
  unfold promiseAll
  have hfind : ps.find? (fun p => p != Settled.resolved) = none := by
    rw [List.find?_eq_none]
    intro x hx
    rw [h x hx]
    simp
  rw [hfind]

/-- C8: every per-path delete and copy operation resolves its promise on
both callback branches, recording only a log marker on failure; hence both
phases settle resolved for every error assignment, with every selected path
attempted and logged; and the modelled external remove reports no error for
a missing target. -/
theorem C8_per_path_failures_isolated :
    (∀ (file : String) (err : Bool),
        (removeOp file err).1 = Settled.resolved ∧
        (copyOp file err).1 = Settled.resolved ∧
        (removeOp file err).2 = [(if err then "! " else "- ") ++ file] ∧
        (copyOp file err).2 = [(if err then "! " else "+ ") ++ file]) ∧
    (∀ (spec : Spec) (err : String → Bool), ∃ log,
        deletePhase (some spec) err = Except.ok log ∧
        ∀ f ∈ deleteFiles spec, (if err f then "! " else "- ") ++ f ∈ log) ∧
    (∀ (spec : Spec) (files : List String) (err : String → Bool), ∃ log,
        copyPhase spec files err = Except.ok log ∧
        ∀ f ∈ copiedFiles spec files, (if err f then "! " else "+ ") ++ f ∈ log) ∧
    (∀ (fsPaths : List String) (target : String),
        (fsRemove fsPaths target false).2 = false) := by
  refine ⟨?_, ?_, ?_, ?_⟩
  · intro file err
    cases err <;> exact ⟨rfl, rfl, rfl, rfl⟩
  · intro spec err
    have hall : promiseAll (((deleteFiles spec).map (fun f => removeOp f (err f))).map
        (fun o => o.1)) = Settled.resolved := by
      apply promiseAll_resolved
      intro s hs
      obtain ⟨o, ho, rfl⟩ := List.mem_map.mp hs
      obtain ⟨f, hf, rfl⟩ := List.mem_map.mp ho
      cases herr : err f <;> simp [removeOp, herr]
    refine ⟨((deleteFiles spec).map (fun f => removeOp f (err f))).flatMap
      (fun o => o.2), ?_, ?_⟩
    · simp only [deletePhase, hall]
    · intro f hf
      refine List.mem_flatMap.mpr ⟨removeOp f (err f), List.mem_map.mpr ⟨f, hf, rfl⟩, ?_⟩
      cases herr : err f <;> simp [removeOp, herr]
  · intro spec files err
    have hall : promiseAll (((copiedFiles spec files).map (fun f => copyOp f (err f))).map
        (fun o => o.1)) = Settled.resolved := by
      apply promiseAll_resolved
      intro s hs
      obtain ⟨o, ho, rfl⟩ := List.mem_map.mp hs
      obtain ⟨f, hf, rfl⟩ := List.mem_map.mp ho
      cases herr : err f <;> simp [copyOp, herr]
    refine ⟨((copiedFiles spec files).map (fun f => copyOp f (err f))).flatMap
      (fun o => o.2), ?_, ?_⟩
    · simp only [copyPhase, hall]
    · intro f hf
      refine List.mem_flatMap.mpr ⟨copyOp f (err f), List.mem_map.mpr ⟨f, hf, rfl⟩, ?_⟩
      cases herr : err f <;> simp [copyOp, herr]
  · intro fsPaths target
    rfl

/-- Witness for C8: both phases at concrete inputs, with a concrete failure
on one path. -/
theorem C8_per_path_failures_isolated_witness :
    ((removeOp "old" true).1 = Settled.resolved ∧
     (copyOp "old" true).1 = Settled.resolved ∧
     (removeOp "old" true).2 = [(if true then "! " else "- ") ++ "old"] ∧
     (copyOp "old" true).2 = [(if true then "! " else "+ ") ++ "old"]) ∧
    (∃ log, deletePhase (some [("old", "delete")]) (fun _ => false) = Except.ok log ∧
      ∀ f ∈ deleteFiles [("old", "delete")],
        (if (fun _ => false) f then "! " else "- ") ++ f ∈ log) ∧
    (∃ log, copyPhase [("node_modules", "ignore")] ["a.txt", "node_modules"]
        (fun _ => true) = Except.ok log ∧
      ∀ f ∈ copiedFiles [("node_modules", "ignore")] ["a.txt", "node_modules"],
        (if (fun _ => true) f then "! " else "+ ") ++ f ∈ log) ∧
    (fsRemove ["src/index.js"] "old/file.txt" false).2 = false ∧
    deletePhase (some [("old", "delete")]) (fun _ => false) = Except.ok ["- old"] ∧
    copyPhase [("node_modules", "ignore")] ["a.txt", "node_modules"] (fun _ => true) =
      Except.ok ["! a.txt"] :=
  ⟨C8_per_path_failures_isolated.1 "old" true,
   C8_per_path_failures_isolated.2.1 [("old", "delete")] (fun _ => false),
   C8_per_path_failures_isolated.2.2.1 [("node_modules", "ignore")]
     ["a.txt", "node_modules"] (fun _ => true),
   C8_per_path_failures_isolated.2.2.2 ["src/index.js"] "old/file.txt",
   by rfl, by rfl⟩

/-- C9: the claim holds for the generator and the clone stages, whose close
handlers reject with the interpolated command line that the catch handler
prints; it fails for npm install, whose close handler interpolates the
identifier command with no such binding in scope, raising a ReferenceError
inside the event callback: the process crashes and the catch handler never
prints the failing command line. -/
theorem C9_command_failure_bug_eval :
    settleToOutcome (createAppClose true "my-app" 1) =
      RunOutcome.abortedPrinting
        ["Aborting installation.", "  npx create-react-app my-app has failed."] ∧
    settleToOutcome (cloneClose "https://example.com/tpl.git" "/tmp/scratch" 1) =
      RunOutcome.abortedPrinting
        ["Aborting installation.",
         "  git clone https://example.com/tpl.git /tmp/scratch has failed."] ∧
    installScopeNames.contains "command" = false ∧
    installClose [("lodash", JsVal.str "^4.0.0")] 1 = CloseResult.threw "command" ∧
    settleToOutcome (installClose [("lodash", JsVal.str "^4.0.0")] 1) =
      RunOutcome.crashed "ReferenceError: command is not defined" ∧
    settleToOutcome (createAppClose true "my-app" 0) = RunOutcome.proceeded := by
  refine ⟨rfl, rfl, rfl, rfl, rfl, rfl⟩

end Craft
